import Mathlib

/-!
Verification of the Inworld TTS client (src/inworld-tts.ts).

The development shallowly embeds the code of the two synthesis sessions
(InworldChunkedStream.run, InworldSynthesizeStream.run / processInput),
the engine facade's mutable configuration (InworldTTS.updateOptions /
getConfig), and the frame assembler (AudioByteStream) they both use.

Bytes are modelled as List Nat, audio frames as their byte payloads,
and JavaScript platform calls (JSON.parse plus base64 decoding) are
abstracted as parameters classifying each line or socket message.
-/

namespace InworldTTS

/-- A synthesis event as put on a session's queue:
the requestId / segmentId tags, the frame's byte payload, and the
final flag. -/
structure SynthEvent where
  requestId : String
  segmentId : String
  frame : List Nat
  final : Bool
deriving Repr, DecidableEq

/-! ## Frame assembler

Modelled from the spec: the AudioByteStream class is imported from the
external @livekit/agents package and its code is not part of this
repository.  Per spec section 4.1, write(bytes) appends bytes to the
internal buffer and returns the complete frames of a fixed byte size in
arrival order, keeping the remainder buffered; flush() emits all
remaining buffered bytes as one final partial frame (the empty sequence
if the buffer is empty) and resets the buffer. -/

/-- The frame-slicing loop, with explicit fuel so that it is
structurally recursive (each iteration removes at least one byte, so
the buffer length is always enough fuel). -/
def takeFramesGo (fs : Nat) : Nat → List Nat → List (List Nat) × List Nat
  | 0, buf => ([], buf)
  | fuel + 1, buf =>
    if 0 < fs ∧ fs ≤ buf.length then
      let r := takeFramesGo fs fuel (buf.drop fs)
      (buf.take fs :: r.1, r.2)
    else ([], buf)

/-- Split a byte buffer into complete frames of fs bytes plus the
remaining (shorter than fs) tail, in order. -/
def takeFrames (fs : Nat) (buf : List Nat) : List (List Nat) × List Nat :=
  takeFramesGo fs buf.length buf

/-- Modelled from the spec: AudioByteStream.write — append the data to
the buffer, emit all complete frames, keep the remainder. -/
def absWrite (fs : Nat) (buf data : List Nat) : List (List Nat) × List Nat :=
  takeFrames fs (buf ++ data)

/-- Modelled from the spec: AudioByteStream.flush — emit the remaining
buffered bytes as one final partial frame, the empty sequence if the
buffer is empty; the buffer is left empty afterwards. -/
def absFlush (buf : List Nat) : List (List Nat) :=
  if buf = [] then [] else [buf]

/-- Run the assembler over a whole sequence of writes, collecting the
emitted frames in order together with the final buffer contents. -/
def absRun (fs : Nat) (writes : List (List Nat)) : List (List Nat) × List Nat :=
  writes.foldl
    (fun acc d =>
      let w := absWrite fs acc.2 d
      (acc.1 ++ w.1, w.2))
    ([], [])

/-! ## Line splitting

The chunked session accumulates decoded text in a buffer and splits it
on newline characters (buffer.split with a newline); the last piece of
the split is retained as the new buffer.  Text is modelled as List Char
and the JavaScript split is embedded as splitNl, which agrees with it:
splitting the empty text gives one empty piece, and every newline
character separates two pieces. -/

/-- Prepend a prefix onto the first piece of a split. -/
def consHead (x : List Char) : List (List Char) → List (List Char)
  | [] => [x]
  | p :: ps => (x ++ p) :: ps

/-- JavaScript string split on the newline character, on List Char. -/
def splitNl : List Char → List (List Char)
  | [] => [[]]
  | c :: rest =>
    if c = '\n' then [] :: splitNl rest
    else consHead [c] (splitNl rest)

/-! ## Chunked synthesis session: InworldChunkedStream.run

The run method is embedded from the point where the HTTP response was
accepted: the response body arrives as a sequence of decoded text
chunks; each chunk is appended to a text buffer which is split on
newlines, the last piece being retained as the new buffer; every
complete line is processed in order.  JSON.parse plus the extraction of
the error / result.audioContent fields (including base64 decoding, all
JavaScript platform calls) are abstracted as a parse parameter
classifying each line. -/

/-- Outcome of JSON.parse plus field extraction on one response line.
malformed models a SyntaxError thrown by JSON.parse (the line is logged
and skipped); parsed err audio models a parsed record, err being the
error record's message when data.error is present (its numeric code is
never read by the code), audio the base64-decoded bytes when
data.result.audioContent is present and truthy (nonempty). -/
inductive LineParse where
  | malformed : LineParse
  | parsed (err : Option String) (audio : Option (List Nat)) : LineParse
deriving Repr, DecidableEq

/-- The characters removed by the trim call on a response line. -/
def jsWhitespace (c : Char) : Bool :=
  c = ' ' || c = '\t' || c = '\n' || c = '\r' || c = '\x0b' || c = '\x0c'

/-- The guard on each line: line.trim() is empty, i.e. every character
is whitespace, so the line is skipped before parsing. -/
def isBlank (l : List Char) : Bool := l.all jsWhitespace

/-- State of a chunked run: the undecoded text buffer (partial trailing
line), the frame assembler buffer, the events put on the queue so far,
and whether the queue has been closed. -/
structure ChunkState where
  buf : List Char
  abuf : List Nat
  events : List SynthEvent
  queueClosed : Bool
deriving Repr, DecidableEq

def initChunkState : ChunkState := ⟨[], [], [], false⟩

/-- Process one complete line: blank lines are skipped; a malformed
line is logged and skipped; an error record throws an Error whose
message prefixes the service-reported message with Inworld API error,
aborting the run; an audioContent payload is written through the frame
assembler and each complete frame is put on the queue as a non-final
event tagged with the request id and the default segment id. -/
def processLine (parse : List Char → LineParse) (fs : Nat) (rid : String)
    (st : ChunkState) (line : List Char) : ChunkState × Option String :=
  if isBlank line then (st, none)
  else
    match parse line with
    | .malformed => (st, none)
    | .parsed (some msg) _ => (st, some ("Inworld API error: " ++ msg))
    | .parsed none (some bytes) =>
      let w := absWrite fs st.abuf bytes
      ({ st with
          abuf := w.2,
          events := st.events ++ w.1.map (fun f => ⟨rid, "default", f, false⟩) },
        none)
    | .parsed none none => (st, none)

/-- Process the complete lines of one chunk in order, stopping at the
first error (the throw propagates out of the line loop). -/
def processLines (parse : List Char → LineParse) (fs : Nat) (rid : String) :
    ChunkState → List (List Char) → ChunkState × Option String
  | st, [] => (st, none)
  | st, l :: rest =>
    match processLine parse fs rid st l with
    | (st', none) => processLines parse fs rid st' rest
    | (st', some e) => (st', some e)

/-- Process one decoded chunk of the response body: append it to the
text buffer, split on newlines, retain the last piece as the new
buffer, and process every other piece as a complete line. -/
def processChunk (parse : List Char → LineParse) (fs : Nat) (rid : String)
    (st : ChunkState) (c : List Char) : ChunkState × Option String :=
  let parts := splitNl (st.buf ++ c)
  processLines parse fs rid { st with buf := parts.getLastD [] } parts.dropLast

/-- The read loop over the chunks of the response body, stopping at the
first error. -/
def runChunkedLoop (parse : List Char → LineParse) (fs : Nat) (rid : String) :
    ChunkState → List (List Char) → ChunkState × Option String
  | st, [] => (st, none)
  | st, c :: rest =>
    match processChunk parse fs rid st c with
    | (st', none) => runChunkedLoop parse fs rid st' rest
    | (st', some e) => (st', some e)

/-- InworldChunkedStream.run from the accepted response onward: read
all chunks; on end of stream flush the assembler, emit the remaining
frames with final=true and close the queue.  An error aborts the run
before the flush, so the queue is left open and no further event is
put.  The requestId is the first 20 characters of the input text. -/
def runChunked (parse : List Char → LineParse) (fs : Nat) (inputText : String)
    (chunks : List (List Char)) : ChunkState × Option String :=
  let rid := inputText.take 20
  let r := runChunkedLoop parse fs rid initChunkState chunks
  match r with
  | (st, some e) => (st, some e)
  | (st, none) =>
    ({ st with
        abuf := [],
        events := st.events ++ (absFlush st.abuf).map (fun f => ⟨rid, "default", f, true⟩),
        queueClosed := true }, none)

/-! ## Streaming synthesis session: InworldSynthesizeStream.run

The run method installs WebSocket handlers inside a Promise and is
embedded as a transition function over a trace of events: parsed
inbound socket messages, the socket error and close events, and the
moment processInput sets inputEnded (the only cross-task write the
handlers read).  JSON.parse and base64 decoding are abstracted by
delivering each message already classified as an InMsg record (or as
malformed when JSON.parse throws).  The Promise settles once: the
first resolve or reject wins and later calls are ignored.  A put on
the closed queue throws inside the handler and is swallowed by its
try/catch, so it appends no event. -/

/-- A parsed inbound socket message: the fields the handler reads.
statusCode / statusMsg model result.status.code and .message when
present; the audioContent field carries the base64-decoded bytes of
result.audioChunk.audioContent when present and truthy (nonempty). -/
structure InMsg where
  hasResult : Bool
  statusCode : Option Int
  statusMsg : Option String
  contextCreated : Bool
  contextClosed : Bool
  audioContent : Option (List Nat)
deriving Repr, DecidableEq

/-- One event observed by the run method.  message none models an
inbound frame on which JSON.parse throws (logged, ignored). -/
inductive TraceEv where
  | message (parsed : Option InMsg) : TraceEv
  | socketError (msg : String) : TraceEv
  | socketClose : TraceEv
  | endInput : TraceEv
deriving Repr, DecidableEq

instance : DecidableEq (Except String Unit) := fun a b =>
  match a, b with
  | .error x, .error y =>
    if h : x = y then isTrue (by rw [h]) else isFalse (by intro he; cases he; exact h rfl)
  | .error _, .ok _ => isFalse (by intro he; cases he)
  | .ok _, .error _ => isFalse (by intro he; cases he)
  | .ok x, .ok y => isTrue (by rfl)

/-- State of a streaming run: how the Promise settled (none while
pending; Except.error for reject, Except.ok for resolve), whether the
queue has been closed, the events put on the queue, the assembler
buffer, the segmentStarted flag and the inputEnded flag shared with
processInput. -/
structure StreamState where
  settled : Option (Except String Unit)
  queueClosed : Bool
  events : List SynthEvent
  abuf : List Nat
  segmentStarted : Bool
  inputEnded : Bool
deriving Repr, DecidableEq

def initStreamState : StreamState := ⟨none, false, [], [], false, false⟩

/-- reject(e): settles the Promise with an error unless already
settled. -/
def rejectP (st : StreamState) (e : String) : StreamState :=
  match st.settled with
  | none => { st with settled := some (.error e) }
  | some _ => st

/-- resolve(): settles the Promise with success unless already
settled. -/
def resolveP (st : StreamState) : StreamState :=
  match st.settled with
  | none => { st with settled := some (.ok ()) }
  | some _ => st

/-- The error-status guard: status has a code field and (by JavaScript
truthiness, where 0 is falsy) the code is nonzero. -/
def isErrStatus (m : InMsg) : Bool :=
  match m.statusCode with
  | some c => c != 0
  | none => false

/-- The reject message for an error status: status.message when truthy
(present and nonempty), otherwise Unknown error. -/
def errStatusText (m : InMsg) : String :=
  match m.statusMsg with
  | some s => if s = "" then "Unknown error" else s
  | none => "Unknown error"

/-- The guard selecting the contextClosed branch of the handler: the
message parsed, has a result, passed the status check, and is neither
a contextCreated acknowledgement nor cut off earlier. -/
def isClosedBranch (m : InMsg) : Bool :=
  m.hasResult && !isErrStatus m && !m.contextCreated && m.contextClosed

/-- Whether a trace event reaches the contextClosed branch. -/
def isClosedEv : TraceEv → Bool
  | .message (some m) => isClosedBranch m
  | _ => false

/-- The message handler of InworldSynthesizeStream.run.  A malformed
message is logged and ignored; a missing result field returns; an
error status rejects the Promise; contextCreated returns;
contextClosed flushes the assembler, puts the resulting frame (if any)
with final=true, closes the queue and resolves; an audio chunk sets
segmentStarted, writes the bytes through the assembler and puts each
complete frame with final=false.  A put on a closed queue throws,
abandoning the rest of the branch. -/
def handleMessage (fs : Nat) (cid : String) (st : StreamState)
    (pm : Option InMsg) : StreamState :=
  match pm with
  | none => st
  | some m =>
    if !m.hasResult then st
    else if isErrStatus m then
      rejectP st ("Inworld error: " ++ errStatusText m)
    else if m.contextCreated then st
    else if m.contextClosed then
      let frames := absFlush st.abuf
      let st := { st with abuf := [] }
      match frames with
      | [] => resolveP { st with queueClosed := true }
      | f :: _ =>
        if st.queueClosed then st
        else
          resolveP { st with
            events := st.events ++ [⟨cid, cid, f, true⟩],
            queueClosed := true }
    else
      match m.audioContent with
      | some bytes =>
        let st := { st with segmentStarted := true }
        let w := absWrite fs st.abuf bytes
        let st := { st with abuf := w.2 }
        if st.queueClosed then st
        else
          { st with
            events := st.events ++ w.1.map (fun f => ⟨cid, cid, f, false⟩) }
      | none => st

/-- One step of the streaming run: dispatch on the observed event.  A
socket error rejects with its message; a socket close while input has
not been marked ended rejects with the unexpected-close message, and is
ignored otherwise; endInput records processInput marking input ended. -/
def stepEv (fs : Nat) (cid : String) (st : StreamState) : TraceEv → StreamState
  | .message pm => handleMessage fs cid st pm
  | .socketError e => rejectP st e
  | .socketClose =>
    if !st.inputEnded then rejectP st "Inworld WebSocket closed unexpectedly"
    else st
  | .endInput => { st with inputEnded := true }

/-- The streaming run over a whole trace of observed events. -/
def streamRun (fs : Nat) (cid : String) (tr : List TraceEv) : StreamState :=
  tr.foldl (stepEv fs cid) initStreamState

/-! ## Streaming session input task: InworldSynthesizeStream.processInput

processInput iterates the caller's input sequence.  Each pull is a
suspension point, so the closed flag of the stream and the OPEN state
of the socket are sampled afresh at every iteration; they are modelled
as a schedule giving, for the i-th check, the pair (closed flag,
socket non-null and in the OPEN state).  After the loop (by break or
by exhaustion) the socket state is sampled once more at the index
where iteration stopped — no suspension separates a break from the
final check, so the same sample is reused there. -/

/-- A caller input item: a text fragment or the flush sentinel. -/
inductive InputItem where
  | flushSentinel : InputItem
  | text (s : String) : InputItem
deriving Repr, DecidableEq

/-- An outbound socket message sent by the client. -/
inductive OutMsg where
  | createMsg : OutMsg
  | sendTextMsg (s : String) : OutMsg
  | flushContextMsg : OutMsg
  | closeContextMsg : OutMsg
deriving Repr, DecidableEq

/-- An observable action of processInput: an outbound send, or the
assignment marking input as ended. -/
inductive PIAct where
  | out (m : OutMsg) : PIAct
  | markEnded : PIAct
deriving Repr, DecidableEq

/-- The epilogue of processInput: after the loop, if the socket is
still OPEN, send one flush_context and one close_context; then mark
input as ended (the closed flag of the stream is not consulted
here). -/
def piPost (sockOpen : Bool) : List PIAct :=
  (if sockOpen then [.out .flushContextMsg, .out .closeContextMsg] else [])
    ++ [.markEnded]

/-- The input loop from check index i: pull an item, break if the
stream is closed or the socket is not OPEN, otherwise forward the item
(flush sentinel as flush_context, text as send_text). -/
def piGo (sched : Nat → Bool × Bool) : Nat → List InputItem → List PIAct
  | i, [] => piPost (sched i).2
  | i, d :: rest =>
    let c := sched i
    if c.1 || !c.2 then piPost c.2
    else
      match d with
      | .flushSentinel => .out .flushContextMsg :: piGo sched (i + 1) rest
      | .text s => .out (.sendTextMsg s) :: piGo sched (i + 1) rest

/-- InworldSynthesizeStream.processInput over the caller's input items
under a schedule of (stream closed, socket OPEN) samples. -/
def processInput (sched : Nat → Bool × Bool) (items : List InputItem) : List PIAct :=
  piGo sched 0 items

/-- The message an input item is forwarded as. -/
def itemMsg : InputItem → OutMsg
  | .flushSentinel => .flushContextMsg
  | .text s => .sendTextMsg s

/-! ## Engine facade configuration: InworldTTS.updateOptions / getConfig

The facade holds the ten configuration fields.  updateOptions copies
only the voice, model, temperature and speakingRate entries of its
argument onto the facade; every other field of the argument is
ignored.  A session stores only a reference to the facade and reads
getConfig() when its run method starts, so the configuration a session
observes is the facade's configuration at run time, not at creation
time.  Temperature and speaking rate are carried opaquely (never
computed with), modelled as rationals. -/

structure TTSConfig where
  apiKey : String
  voice : String
  model : String
  encoding : String
  bitRate : Nat
  sampleRate : Nat
  temperature : Rat
  speakingRate : Rat
  baseUrl : String
  wsUrl : String
deriving Repr, DecidableEq

/-- A Partial InworldTTSOptions argument to updateOptions: any subset
of the option fields may be present. -/
structure UpdateOpts where
  apiKey : Option String := none
  voice : Option String := none
  model : Option String := none
  encoding : Option String := none
  bitRate : Option Nat := none
  sampleRate : Option Nat := none
  temperature : Option Rat := none
  speakingRate : Option Rat := none
  baseUrl : Option String := none
  wsUrl : Option String := none
deriving Repr, DecidableEq

/-- InworldTTS.updateOptions: assign voice, model, temperature and
speakingRate when present in the argument; nothing else is touched. -/
def updateOptions (o : UpdateOpts) (c : TTSConfig) : TTSConfig :=
  { c with
    voice := o.voice.getD c.voice,
    model := o.model.getD c.model,
    temperature := o.temperature.getD c.temperature,
    speakingRate := o.speakingRate.getD c.speakingRate }

/-- A facade-level operation on the timeline of one InworldTTS
facade object: creating a session (which stores only a reference to
the facade), calling updateOptions, or a session's run method starting
and reading getConfig(). -/
inductive FacadeOp where
  | createSession : FacadeOp
  | update (o : UpdateOpts) : FacadeOp
  | runSession : FacadeOp
deriving DecidableEq

/-- Fold a timeline of facade operations over the configuration:
only update changes it. -/
def applyOps (c : TTSConfig) (ops : List FacadeOp) : TTSConfig :=
  ops.foldl
    (fun c op =>
      match op with
      | .update o => updateOptions o c
      | _ => c)
    c

/-- The configurations read by getConfig() at each runSession on the
timeline, in order: each run observes the facade's current
configuration at that point. -/
def obsConfigs (c : TTSConfig) : List FacadeOp → List TTSConfig
  | [] => []
  | .update o :: rest => obsConfigs (updateOptions o c) rest
  | .runSession :: rest => c :: obsConfigs c rest
  | .createSession :: rest => obsConfigs c rest

/-- The facade's configuration as each session is created, in order. -/
def creationConfigs (c : TTSConfig) : List FacadeOp → List TTSConfig
  | [] => []
  | .update o :: rest => creationConfigs (updateOptions o c) rest
  | .createSession :: rest => c :: creationConfigs c rest
  | .runSession :: rest => creationConfigs c rest

/-- A streaming inbound message carrying a nonzero status code. -/
def msgStatusQuota : InMsg := ⟨true, some 7, some "quota exceeded", false, false, none⟩

/-- A streaming inbound message carrying two bytes of audio. -/
def msgAudio01 : InMsg := ⟨true, none, none, false, false, some [0, 1]⟩

/-- A streaming contextClosed acknowledgement message. -/
def msgClosed : InMsg := ⟨true, none, none, false, true, none⟩

/-- Whether an action list contains a send_text strictly after some
close_context send. -/
def sendTextAfterClose : List PIAct → Bool
  | [] => false
  | a :: rest =>
    (decide (a = .out .closeContextMsg) &&
      rest.any (fun b => match b with | .out (.sendTextMsg _) => true | _ => false))
    || sendTextAfterClose rest

/-- The outbound messages of an action list, in order. -/
def outMsgs (acts : List PIAct) : List OutMsg :=
  acts.filterMap (fun a => match a with | .out m => some m | .markEnded => none)

/-- The outbound messages sent strictly after the last send_text. -/
def afterLastSendText (ms : List OutMsg) : List OutMsg :=
  (ms.reverse.takeWhile
    (fun m => match m with | .sendTextMsg _ => false | _ => true)).reverse

/-- Modelled from the spec: flush as a state transition — it returns
the remaining buffered bytes as at most one frame and leaves the
buffer empty. -/
def absFlushSt (buf : List Nat) : List (List Nat) × List Nat := (absFlush buf, [])

/-- A facade configuration with the source's default voice Alex. -/
def defaultConfig : TTSConfig :=
  ⟨"key", "Alex", "inworld-tts-1", "LINEAR16", 64000, 48000, 1, 1,
    "https://api.inworld.ai/", "wss://api.inworld.ai/"⟩

/-- An updateOptions argument setting only the voice. -/
def updVoiceBob : UpdateOpts := { voice := some "Bob" }

/-- The shorthand timeline: create a session, update the voice, then
the session's run starts. -/
def cexTimeline : List FacadeOp := [.createSession, .update updVoiceBob, .runSession]

/-- The line classifier used by concrete chunked examples: the literal
not json line fails to parse, anything else is a valid audio record
decoding to three bytes. -/
def exampleParse : List Char → LineParse := fun l =>
  if l = ("not json".toList) then .malformed
  else .parsed none (some [1, 2, 3])

/-! # Theorems -/

theorem takeFramesGo_flatten (fs fuel : Nat) (buf : List Nat) :
    (takeFramesGo fs fuel buf).1.flatten ++ (takeFramesGo fs fuel buf).2 = buf := by
  induction fuel generalizing buf with
  | zero => simp [takeFramesGo]
  | succ n ih =>
    unfold takeFramesGo
    by_cases h : 0 < fs ∧ fs ≤ buf.length
    · simp only [if_pos h, List.flatten_cons, List.append_assoc]
      rw [ih]
      exact List.take_append_drop fs buf
    · simp [if_neg h]

theorem takeFrames_flatten (fs : Nat) (buf : List Nat) :
    (takeFrames fs buf).1.flatten ++ (takeFrames fs buf).2 = buf :=
  takeFramesGo_flatten fs buf.length buf

theorem absWrite_flatten (fs : Nat) (buf data : List Nat) :
    (absWrite fs buf data).1.flatten ++ (absWrite fs buf data).2 = buf ++ data := by
  unfold absWrite
  exact takeFrames_flatten fs (buf ++ data)

theorem absFlush_flatten (buf : List Nat) : (absFlush buf).flatten = buf := by
  unfold absFlush
  by_cases h : buf = [] <;> simp [h]

theorem absRun_flatten (fs : Nat) (writes : List (List Nat)) :
    (absRun fs writes).1.flatten ++ (absRun fs writes).2 = writes.flatten := by
  suffices h : ∀ (acc : List (List Nat) × List Nat),
      (writes.foldl
        (fun acc d =>
          let w := absWrite fs acc.2 d
          (acc.1 ++ w.1, w.2)) acc).1.flatten ++
      (writes.foldl
        (fun acc d =>
          let w := absWrite fs acc.2 d
          (acc.1 ++ w.1, w.2)) acc).2 = acc.1.flatten ++ acc.2 ++ writes.flatten by
    have h2 := h ([], [])
    simpa [absRun] using h2
  induction writes with
  | nil => intro acc; simp
  | cons d rest ih =>
    intro acc
    simp only [List.foldl_cons, List.flatten_cons]
    rw [ih]
    have hw := absWrite_flatten fs acc.2 d
    simp only [List.flatten_append, List.append_assoc]
    congr 1
    rw [← List.append_assoc, hw, List.append_assoc]

theorem splitNl_ne_nil (l : List Char) : splitNl l ≠ [] := by
  induction l with
  | nil => simp [splitNl]
  | cons c rest ih =>
    simp only [splitNl]
    by_cases h : c = '\n'
    · simp [h]
    · simp only [if_neg h]
      cases hr : splitNl rest with
      | nil => simp [consHead]
      | cons p ps => simp [consHead]

theorem splitNl_no_newline (l : List Char) (h : '\n' ∉ l) : splitNl l = [l] := by
  induction l with
  | nil => rfl
  | cons c rest ih =>
    simp only [List.mem_cons, not_or] at h
    simp only [splitNl]
    rw [if_neg (fun hc => h.1 hc.symm), ih h.2]
    rfl

theorem consHead_consHead (x y : List Char) (s : List (List Char)) (h : s ≠ []) :
    consHead x (consHead y s) = consHead (x ++ y) s := by
  cases s with
  | nil => exact absurd rfl h
  | cons p ps => simp [consHead]

/-- Splitting l1 followed by s, when l1 has no newline, prepends l1 onto
the first piece of the split of s. -/
theorem splitNl_append_no_newline (l₁ s : List Char) (h : '\n' ∉ l₁) :
    splitNl (l₁ ++ s) = consHead l₁ (splitNl s) := by
  induction l₁ with
  | nil =>
    cases hs : splitNl s with
    | nil => exact absurd hs (splitNl_ne_nil s)
    | cons p ps => simp [consHead, hs]
  | cons c rest ih =>
    simp only [List.mem_cons, not_or] at h
    simp only [List.cons_append, splitNl, List.append_eq]
    rw [if_neg (fun hc => h.1 hc.symm), ih h.2,
      consHead_consHead [c] rest _ (splitNl_ne_nil s)]
    rfl

theorem splitNl_newline_cons (t : List Char) :
    splitNl ('\n' :: t) = [] :: splitNl t := by
  simp [splitNl]

/-! ## Invariants of the chunked line loop -/

theorem processLine_queueClosed (p : List Char → LineParse) (fs : Nat) (rid : String)
    (st : ChunkState) (l : List Char) :
    (processLine p fs rid st l).1.queueClosed = st.queueClosed := by
  unfold processLine
  split
  · rfl
  · split <;> rfl

theorem processLine_buf (p : List Char → LineParse) (fs : Nat) (rid : String)
    (st : ChunkState) (l : List Char) :
    (processLine p fs rid st l).1.buf = st.buf := by
  unfold processLine
  split
  · rfl
  · split <;> rfl

theorem processLine_events (p : List Char → LineParse) (fs : Nat) (rid : String)
    (st : ChunkState) (l : List Char) :
    ∃ new, (processLine p fs rid st l).1.events = st.events ++ new ∧
      ∀ e ∈ new, e.final = false := by
  unfold processLine
  split
  · exact ⟨[], by simp, by simp⟩
  · split
    · exact ⟨[], by simp, by simp⟩
    · exact ⟨[], by simp, by simp⟩
    · rename_i bytes _
      refine ⟨_, rfl, ?_⟩
      intro e he
      simp only [List.mem_map] at he
      obtain ⟨f, _, hf⟩ := he
      rw [← hf]
    · exact ⟨[], by simp, by simp⟩

theorem processLines_queueClosed (p : List Char → LineParse) (fs : Nat) (rid : String)
    (ls : List (List Char)) (st : ChunkState) :
    (processLines p fs rid st ls).1.queueClosed = st.queueClosed := by
  induction ls generalizing st with
  | nil => rfl
  | cons l rest ih =>
    unfold processLines
    have hq := processLine_queueClosed p fs rid st l
    cases hpl : processLine p fs rid st l with
    | mk st' err =>
      cases err with
      | none =>
        simp only []
        rw [ih st']
        rw [hpl] at hq
        exact hq
      | some e =>
        simp only []
        rw [hpl] at hq
        exact hq

theorem processLines_events (p : List Char → LineParse) (fs : Nat) (rid : String)
    (ls : List (List Char)) (st : ChunkState) :
    ∃ new, (processLines p fs rid st ls).1.events = st.events ++ new ∧
      ∀ e ∈ new, e.final = false := by
  induction ls generalizing st with
  | nil => exact ⟨[], by simp [processLines], by simp⟩
  | cons l rest ih =>
    unfold processLines
    obtain ⟨new₁, hev₁, hnf₁⟩ := processLine_events p fs rid st l
    cases hpl : processLine p fs rid st l with
    | mk st' err =>
      rw [hpl] at hev₁
      cases err with
      | none =>
        simp only []
        obtain ⟨new₂, hev₂, hnf₂⟩ := ih st'
        refine ⟨new₁ ++ new₂, ?_, ?_⟩
        · rw [hev₂, hev₁, List.append_assoc]
        · intro e he
          rcases List.mem_append.mp he with h | h
          · exact hnf₁ e h
          · exact hnf₂ e h
      | some e =>
        exact ⟨new₁, hev₁, hnf₁⟩

theorem processChunk_queueClosed (p : List Char → LineParse) (fs : Nat) (rid : String)
    (st : ChunkState) (c : List Char) :
    (processChunk p fs rid st c).1.queueClosed = st.queueClosed := by
  unfold processChunk
  exact processLines_queueClosed p fs rid _ _

theorem processChunk_events (p : List Char → LineParse) (fs : Nat) (rid : String)
    (st : ChunkState) (c : List Char) :
    ∃ new, (processChunk p fs rid st c).1.events = st.events ++ new ∧
      ∀ e ∈ new, e.final = false := by
  unfold processChunk
  exact processLines_events p fs rid _ _

theorem runChunkedLoop_queueClosed (p : List Char → LineParse) (fs : Nat) (rid : String)
    (chunks : List (List Char)) (st : ChunkState) :
    (runChunkedLoop p fs rid st chunks).1.queueClosed = st.queueClosed := by
  induction chunks generalizing st with
  | nil => rfl
  | cons c rest ih =>
    unfold runChunkedLoop
    have hq := processChunk_queueClosed p fs rid st c
    cases hpc : processChunk p fs rid st c with
    | mk st' err =>
      rw [hpc] at hq
      cases err with
      | none =>
        simp only []
        rw [ih st']
        exact hq
      | some e =>
        simp only []
        exact hq

theorem runChunkedLoop_events (p : List Char → LineParse) (fs : Nat) (rid : String)
    (chunks : List (List Char)) (st : ChunkState) :
    ∃ new, (runChunkedLoop p fs rid st chunks).1.events = st.events ++ new ∧
      ∀ e ∈ new, e.final = false := by
  induction chunks generalizing st with
  | nil => exact ⟨[], by simp [runChunkedLoop], by simp⟩
  | cons c rest ih =>
    unfold runChunkedLoop
    obtain ⟨new₁, hev₁, hnf₁⟩ := processChunk_events p fs rid st c
    cases hpc : processChunk p fs rid st c with
    | mk st' err =>
      rw [hpc] at hev₁
      cases err with
      | none =>
        simp only []
        obtain ⟨new₂, hev₂, hnf₂⟩ := ih st'
        refine ⟨new₁ ++ new₂, ?_, ?_⟩
        · rw [hev₂, hev₁, List.append_assoc]
        · intro e he
          rcases List.mem_append.mp he with h | h
          · exact hnf₁ e h
          · exact hnf₂ e h
      | some e =>
        exact ⟨new₁, hev₁, hnf₁⟩

/-! ## Claim C1 -/

/-- C1 (counterexample): the claim says every error-free chunked
session ends with exactly one final=true event.  A session whose
response body is empty (no chunks) completes without error, yet the
assembler buffer is empty at end of stream, flush emits no frame, and
the queue is closed with no final event at all. -/
theorem c1_counterexample :
    (runChunked (fun _ => .malformed) 4 "hello" []).2 = none ∧
    (runChunked (fun _ => .malformed) 4 "hello" []).1.queueClosed = true ∧
    ((runChunked (fun _ => .malformed) 4 "hello" []).1.events.any
      (fun e => e.final)) = false := by
  refine ⟨rfl, rfl, rfl⟩

/-- C1 (amended): for every chunked session that completes without
error, the event sequence is zero or more final=false events followed
by at most one final=true event, the queue is closed immediately after
the flush (so no event follows a final one), and the number of
final=true events is exactly one when the assembler buffer at end of
stream (the loop-final buffer, before the flush resets it) is
nonempty, and exactly zero when that buffer is empty. -/
theorem c1_event_sequence_shape (p : List Char → LineParse) (fs : Nat)
    (text : String) (chunks : List (List Char))
    (h : (runChunked p fs text chunks).2 = none) :
    (∀ e ∈ (runChunked p fs text chunks).1.events.dropLast, e.final = false) ∧
    (runChunked p fs text chunks).1.queueClosed = true ∧
    (runChunked p fs text chunks).1.events.countP (fun e => e.final)
      = (if (runChunkedLoop p fs (text.take 20) initChunkState chunks).1.abuf = []
         then 0 else 1) := by
  obtain ⟨new, hev, hnf⟩ := runChunkedLoop_events p fs (text.take 20) chunks initChunkState
  simp only [runChunked] at h ⊢
  cases hl : runChunkedLoop p fs (text.take 20) initChunkState chunks with
  | mk st err =>
    rw [hl] at h hev
    cases err with
    | some e => simp at h
    | none =>
      dsimp only at hev ⊢
      simp only [initChunkState] at hev
      have hev0 : st.events = new := by simpa using hev
      have h0 : st.events.countP (fun e => e.final) = 0 := by
        rw [hev0]
        refine List.countP_eq_zero.mpr ?_
        intro e he
        simp [hnf e he]
      refine ⟨?_, rfl, ?_⟩
      · intro e he
        by_cases hb : st.abuf = []
        · simp only [absFlush, if_pos hb, List.map_nil, List.append_nil] at he
          have hmem : e ∈ st.events := List.dropLast_subset _ he
          rw [hev0] at hmem
          exact hnf e hmem
        · simp only [absFlush, if_neg hb, List.map_cons, List.map_nil] at he
          rw [List.dropLast_concat] at he
          rw [hev0] at he
          exact hnf e he
      · by_cases hb : st.abuf = []
        · simp only [absFlush, if_pos hb, List.map_nil, List.append_nil, if_pos hb]
          exact h0
        · simp only [absFlush, if_neg hb, List.map_cons, List.map_nil, if_neg hb]
          rw [List.countP_append, h0]
          rfl

/-- C1 (witness): a session with one audio line shorter than a frame
completes without error; the loop-final assembler buffer is nonempty,
so the flush emits exactly one final=true event (present in the
sequence), all earlier events are non-final, and the queue is
closed. -/
theorem c1_witness :
    (runChunked (fun _ => .parsed none (some [1, 2, 3])) 4 "hello" ["X\n".toList]).2
        = none ∧
    (∀ e ∈ (runChunked (fun _ => .parsed none (some [1, 2, 3])) 4 "hello"
        ["X\n".toList]).1.events.dropLast, e.final = false) ∧
    (runChunked (fun _ => .parsed none (some [1, 2, 3])) 4 "hello"
        ["X\n".toList]).1.queueClosed = true ∧
    (runChunked (fun _ => .parsed none (some [1, 2, 3])) 4 "hello"
        ["X\n".toList]).1.events.countP (fun e => e.final) = 1 ∧
    ((runChunked (fun _ => .parsed none (some [1, 2, 3])) 4 "hello"
        ["X\n".toList]).1.events.any (fun e => e.final)) = true := by
  have h := c1_event_sequence_shape (fun _ => .parsed none (some [1, 2, 3])) 4 "hello"
    ["X\n".toList] rfl
  refine ⟨rfl, h.1, h.2.1, ?_, by decide⟩
  rw [h.2.2]
  decide

/-! ## Claim C4 -/

/-- C4 (counterexample): on the streaming path the claim fails: after a
nonzero status code rejects the session with the service message, the
message handler stays installed, so an audio chunk arriving later is
still decoded and its frame is put on the event queue — an audio frame
is emitted after the error was observed. -/
theorem c4_counterexample :
    (streamRun 2 "c" [.message (some msgStatusQuota),
        .message (some msgAudio01)]).settled
      = some (.error "Inworld error: quota exceeded") ∧
    (streamRun 2 "c" [.message (some msgStatusQuota),
        .message (some msgAudio01)]).events
      = [⟨"c", "c", [0, 1], false⟩] := ⟨by decide, by decide⟩

/-- C4 (amended): a service-reported error terminates the session with
the service message on both transports.  On the chunked path an error
record stops the line loop at once: no further line is processed, no
further event is put, and the error propagates out of the run without
the final flush or queue close.  On the streaming path a nonzero
status code rejects the (not yet settled) Promise with the service
message and that step adds no event; but the handler keeps running, so
frames from audio messages that arrive after the rejection are still
put on the queue. -/
theorem c4_service_error_behavior :
    (∀ (p : List Char → LineParse) (fs : Nat) (rid : String) (st : ChunkState)
        (l : List Char) (msg : String) (a : Option (List Nat)) (rest : List (List Char)),
      isBlank l = false → p l = .parsed (some msg) a →
      processLines p fs rid st (l :: rest) = (st, some ("Inworld API error: " ++ msg))) ∧
    (∀ (p : List Char → LineParse) (fs : Nat) (rid : String) (st st' : ChunkState)
        (c : List Char) (e : String) (rest : List (List Char)),
      processChunk p fs rid st c = (st', some e) →
      runChunkedLoop p fs rid st (c :: rest) = (st', some e)) ∧
    (∀ (p : List Char → LineParse) (fs : Nat) (text : String)
        (chunks : List (List Char)) (st' : ChunkState) (e : String),
      runChunkedLoop p fs (text.take 20) initChunkState chunks = (st', some e) →
      runChunked p fs text chunks = (st', some e)) ∧
    (∀ (fs : Nat) (cid : String) (st : StreamState) (m : InMsg),
      st.settled = none → m.hasResult = true → isErrStatus m = true →
      handleMessage fs cid st (some m)
        = { st with settled := some (.error ("Inworld error: " ++ errStatusText m)) }) := by
  refine ⟨?_, ?_, ?_, ?_⟩
  · intro p fs rid st l msg a rest hb hp
    unfold processLines processLine
    simp [hb, hp]
  · intro p fs rid st st' c e rest hpc
    unfold runChunkedLoop
    rw [hpc]
  · intro p fs text chunks st' e h
    simp only [runChunked]
    rw [h]
  · intro fs cid st m hset hres herr
    unfold handleMessage
    simp only [hres, herr, Bool.not_true, Bool.false_eq_true, if_false, if_true,
      Bool.true_eq_false]
    unfold rejectP
    rw [hset]

/-- C4 (witness): concrete instances of all four parts: an error line
stops the chunked line loop, propagates through the chunk loop and the
run, and a nonzero status rejects a pending streaming session with the
service message. -/
theorem c4_witness :
    (isBlank "E".toList = false ∧
      processLines (fun _ => .parsed (some "quota exceeded") none) 4 "r"
        initChunkState ["E".toList]
        = (initChunkState, some "Inworld API error: quota exceeded")) ∧
    (processChunk (fun _ => .parsed (some "quota exceeded") none) 4 "r"
        initChunkState "E\n".toList
        = (initChunkState, some "Inworld API error: quota exceeded") ∧
      runChunkedLoop (fun _ => .parsed (some "quota exceeded") none) 4 "r"
        initChunkState ["E\n".toList, "X\n".toList]
        = (initChunkState, some "Inworld API error: quota exceeded")) ∧
    (runChunked (fun _ => .parsed (some "quota exceeded") none) 4 "text"
        ["E\n".toList]
        = (initChunkState, some "Inworld API error: quota exceeded")) ∧
    (initStreamState.settled = none ∧
      handleMessage 2 "c" initStreamState (some msgStatusQuota)
        = { initStreamState with
            settled := some (.error "Inworld error: quota exceeded") }) := by
  refine ⟨⟨by decide, ?_⟩, ⟨?_, ?_⟩, ?_, ⟨rfl, ?_⟩⟩
  · exact c4_service_error_behavior.1 _ 4 "r" initChunkState "E".toList
      "quota exceeded" none [] (by decide) rfl
  · rfl
  · exact c4_service_error_behavior.2.1 _ 4 "r" initChunkState initChunkState
      "E\n".toList "Inworld API error: quota exceeded" ["X\n".toList] rfl
  · exact c4_service_error_behavior.2.2.1 _ 4 "text" ["E\n".toList]
      initChunkState "Inworld API error: quota exceeded" rfl
  · exact c4_service_error_behavior.2.2.2 2 "c" initStreamState msgStatusQuota
      rfl rfl rfl

/-! ## Invariants of the streaming run -/

theorem rejectP_events (st : StreamState) (e : String) :
    (rejectP st e).events = st.events := by
  unfold rejectP
  cases st.settled <;> rfl

theorem rejectP_settled_ok (st : StreamState) (e : String)
    (h : (rejectP st e).settled = some (.ok ())) : st.settled = some (.ok ()) := by
  unfold rejectP at h
  cases hs : st.settled with
  | none => rw [hs] at h; simp at h
  | some s => rw [hs] at h; dsimp only at h; rw [← hs]; exact h

theorem stepEv_settled_ok (fs : Nat) (cid : String) (st : StreamState) (ev : TraceEv)
    (h : (stepEv fs cid st ev).settled = some (.ok ())) :
    st.settled = some (.ok ()) ∨ isClosedEv ev = true := by
  cases ev with
  | message pm =>
    cases pm with
    | none => exact .inl h
    | some m =>
      simp only [stepEv, handleMessage] at h
      by_cases h1 : m.hasResult
      · simp only [h1, Bool.not_true, Bool.false_eq_true, if_false] at h
        by_cases h2 : isErrStatus m
        · rw [if_pos h2] at h
          exact .inl (rejectP_settled_ok _ _ h)
        · simp only [h2, Bool.false_eq_true, if_false] at h
          by_cases h3 : m.contextCreated
          · rw [if_pos h3] at h
            exact .inl h
          · simp only [h3, Bool.false_eq_true, if_false] at h
            by_cases h4 : m.contextClosed
            · refine .inr ?_
              simp [isClosedEv, isClosedBranch, h1, h2, h3, h4]
            · simp only [h4, Bool.false_eq_true, if_false] at h
              cases ha : m.audioContent with
              | none => rw [ha] at h; exact .inl h
              | some bytes =>
                rw [ha] at h
                dsimp only at h
                split at h
                · exact .inl h
                · exact .inl h
      · have h1f : m.hasResult = false := by revert h1; cases m.hasResult <;> simp
        rw [if_pos (show (!m.hasResult) = true by rw [h1f]; rfl)] at h
        exact .inl h
  | socketError e => exact .inl (rejectP_settled_ok _ _ h)
  | socketClose =>
    simp only [stepEv] at h
    split at h
    · exact .inl (rejectP_settled_ok _ _ h)
    · exact .inl h
  | endInput => exact .inl h

theorem stepEv_nonfinal (fs : Nat) (cid : String) (st : StreamState) (ev : TraceEv)
    (hev : isClosedEv ev = false) (hst : ∀ e ∈ st.events, e.final = false) :
    ∀ e ∈ (stepEv fs cid st ev).events, e.final = false := by
  cases ev with
  | message pm =>
    cases pm with
    | none => exact hst
    | some m =>
      simp only [stepEv, handleMessage]
      by_cases h1 : m.hasResult
      · simp only [h1, Bool.not_true, Bool.false_eq_true, if_false]
        by_cases h2 : isErrStatus m
        · rw [if_pos h2, rejectP_events]
          exact hst
        · simp only [h2, Bool.false_eq_true, if_false]
          by_cases h3 : m.contextCreated
          · rw [if_pos h3]
            exact hst
          · simp only [h3, Bool.false_eq_true, if_false]
            by_cases h4 : m.contextClosed
            · exfalso
              have : isClosedEv (.message (some m)) = true := by
                simp [isClosedEv, isClosedBranch, h1, h2, h3, h4]
              rw [hev] at this
              exact Bool.false_ne_true this
            · simp only [h4, Bool.false_eq_true, if_false]
              cases ha : m.audioContent with
              | none => exact hst
              | some bytes =>
                dsimp only
                split
                · exact hst
                · intro e he
                  simp only [] at he
                  rcases List.mem_append.mp he with hm | hm
                  · exact hst e hm
                  · simp only [List.mem_map] at hm
                    obtain ⟨f, _, hf⟩ := hm
                    rw [← hf]
      · have h1f : m.hasResult = false := by revert h1; cases m.hasResult <;> simp
        rw [if_pos (show (!m.hasResult) = true by rw [h1f]; rfl)]
        exact hst
  | socketError e =>
    simp only [stepEv]
    rw [rejectP_events]
    exact hst
  | socketClose =>
    simp only [stepEv]
    split
    · rw [rejectP_events]; exact hst
    · exact hst
  | endInput => exact hst

theorem streamFold_settled_ok (fs : Nat) (cid : String) (tr : List TraceEv) :
    ∀ st : StreamState, (tr.foldl (stepEv fs cid) st).settled = some (.ok ()) →
    st.settled = some (.ok ()) ∨ ∃ ev ∈ tr, isClosedEv ev = true := by
  induction tr with
  | nil => intro st h; exact .inl h
  | cons ev rest ih =>
    intro st h
    rw [List.foldl_cons] at h
    rcases ih (stepEv fs cid st ev) h with h1 | h1
    · rcases stepEv_settled_ok fs cid st ev h1 with h2 | h2
      · exact .inl h2
      · exact .inr ⟨ev, List.mem_cons_self ev rest, h2⟩
    · obtain ⟨ev', hmem, hc⟩ := h1
      exact .inr ⟨ev', List.mem_cons_of_mem ev hmem, hc⟩

theorem streamFold_nonfinal (fs : Nat) (cid : String) (tr : List TraceEv) :
    ∀ st : StreamState, (∀ ev ∈ tr, isClosedEv ev = false) →
    (∀ e ∈ st.events, e.final = false) →
    ∀ e ∈ (tr.foldl (stepEv fs cid) st).events, e.final = false := by
  induction tr with
  | nil => intro st _ hst; exact hst
  | cons ev rest ih =>
    intro st htr hst
    rw [List.foldl_cons]
    exact ih (stepEv fs cid st ev)
      (fun ev' hm => htr ev' (List.mem_cons_of_mem ev hm))
      (stepEv_nonfinal fs cid st ev (htr ev (List.mem_cons_self ev rest)) hst)

/-! ## Claim C2 -/

/-- C2 (counterexample): receipt of contextClosed with an empty
assembler buffer completes the session (resolve, queue closed) but
emits no final=true event at all — flush of an empty buffer yields no
frame — so a final event is not emitted although contextClosed was
received, refuting the claimed equivalence. -/
theorem c2_counterexample :
    (streamRun 2 "c" [.message (some msgClosed)]).settled = some (.ok ()) ∧
    (streamRun 2 "c" [.message (some msgClosed)]).queueClosed = true ∧
    ((streamRun 2 "c" [.message (some msgClosed)]).events.any
      (fun e => e.final)) = false := ⟨rfl, rfl, by decide⟩

/-- C2 (amended): a final=true event is emitted only through the
contextClosed branch: a session that resolves successfully saw a
contextClosed message, and a trace with no contextClosed message
contains only final=false events.  Receipt of contextClosed by a
pending session with an open queue flushes the assembler, emits one
final=true event exactly when the buffer is nonempty, closes the queue
and resolves — the only path that legitimately completes the
session. -/
theorem c2_final_iff_context_closed :
    (∀ (fs : Nat) (cid : String) (tr : List TraceEv),
      (streamRun fs cid tr).settled = some (.ok ()) →
      ∃ ev ∈ tr, isClosedEv ev = true) ∧
    (∀ (fs : Nat) (cid : String) (tr : List TraceEv),
      (∀ ev ∈ tr, isClosedEv ev = false) →
      ∀ e ∈ (streamRun fs cid tr).events, e.final = false) ∧
    (∀ (fs : Nat) (cid : String) (st : StreamState) (m : InMsg),
      isClosedBranch m = true → st.settled = none → st.queueClosed = false →
      handleMessage fs cid st (some m)
        = { st with
            settled := some (.ok ()),
            queueClosed := true,
            events := st.events
              ++ (absFlush st.abuf).map (fun f => ⟨cid, cid, f, true⟩),
            abuf := [] }) := by
  refine ⟨?_, ?_, ?_⟩
  · intro fs cid tr h
    rcases streamFold_settled_ok fs cid tr initStreamState h with h1 | h1
    · simp [initStreamState] at h1
    · exact h1
  · intro fs cid tr htr
    exact streamFold_nonfinal fs cid tr initStreamState htr (by simp [initStreamState])
  · intro fs cid st m hcb hset hq
    simp only [isClosedBranch, Bool.and_eq_true, Bool.not_eq_true'] at hcb
    obtain ⟨⟨⟨h1, h2⟩, h3⟩, h4⟩ := hcb
    unfold handleMessage
    simp only [h1, h2, h3, h4, Bool.not_true, Bool.false_eq_true, if_false, if_true]
    by_cases hb : st.abuf = []
    · simp only [absFlush, if_pos hb, List.map_nil, List.append_nil]
      unfold resolveP
      rw [hset]
    · simp only [absFlush, if_neg hb, List.map_cons, List.map_nil]
      rw [if_neg (by rw [hq]; exact Bool.false_ne_true)]
      unfold resolveP
      rw [hset]

/-- C2 (witness): a pending session with two buffered bytes receives
contextClosed: the assembler is flushed into one final event, the
queue is closed and the Promise resolves; and a resolved concrete
trace indeed contains its contextClosed message. -/
theorem c2_witness :
    (isClosedBranch msgClosed = true ∧
      handleMessage 2 "c" { initStreamState with abuf := [9, 9] } (some msgClosed)
        = { initStreamState with
            settled := some (.ok ()),
            queueClosed := true,
            events := [⟨"c", "c", [9, 9], true⟩],
            abuf := [] }) ∧
    (∃ ev ∈ [TraceEv.message (some msgClosed)], isClosedEv ev = true) := by
  refine ⟨⟨rfl, ?_⟩, ?_⟩
  · have h := c2_final_iff_context_closed.2.2 2 "c"
      { initStreamState with abuf := [9, 9] } msgClosed rfl rfl rfl
    rw [h]
    decide
  · exact c2_final_iff_context_closed.1 2 "c" [.message (some msgClosed)] rfl

/-! ## Claim C5 -/

/-- C5 (counterexample): the socket closes while the caller has not
signaled end-of-input (inputEnded is false for the whole trace), yet
the session does not terminate with an unexpected-close error: a
contextClosed message had already resolved the Promise, and the late
reject of an already-settled Promise is a no-op, so the session
completes successfully. -/
theorem c5_counterexample :
    (streamRun 2 "c" [.message (some msgClosed), .socketClose]).inputEnded = false ∧
    (streamRun 2 "c" [.message (some msgClosed), .socketClose]).settled
      = some (.ok ()) ∧
    (streamRun 2 "c" [.message (some msgClosed), .socketClose]).queueClosed = true :=
  ⟨rfl, rfl, rfl⟩

/-- C5 (amended): if the socket closes while input has not been marked
ended and the session is still pending (not already completed by
contextClosed nor already failed), it is rejected with the
unexpected-close error; the close step adds no event and does not
close the queue, so the sequence ends with an error and not with a
silent final event. -/
theorem c5_unexpected_close (fs : Nat) (cid : String) (pre : List TraceEv)
    (hset : (streamRun fs cid pre).settled = none)
    (hie : (streamRun fs cid pre).inputEnded = false) :
    streamRun fs cid (pre ++ [.socketClose])
      = { streamRun fs cid pre with
          settled := some (.error "Inworld WebSocket closed unexpectedly") } := by
  have key : ∀ st : StreamState, st.settled = none → st.inputEnded = false →
      stepEv fs cid st .socketClose
        = { st with settled := some (.error "Inworld WebSocket closed unexpectedly") } := by
    intro st h1 h2
    unfold stepEv
    rw [if_pos (by rw [h2]; rfl)]
    unfold rejectP
    rw [h1]
  unfold streamRun
  rw [List.foldl_append]
  simp only [List.foldl_cons, List.foldl_nil]
  exact key _ hset hie

/-- C5 (witness): after one audio message the session is pending with
input not ended; a socket close then rejects it with the
unexpected-close error and changes nothing else. -/
theorem c5_witness :
    (streamRun 2 "c" [.message (some msgAudio01)]).settled = none ∧
    (streamRun 2 "c" [.message (some msgAudio01)]).inputEnded = false ∧
    streamRun 2 "c" [.message (some msgAudio01), .socketClose]
      = { streamRun 2 "c" [.message (some msgAudio01)] with
          settled := some (.error "Inworld WebSocket closed unexpectedly") } :=
  ⟨rfl, rfl, c5_unexpected_close 2 "c" [.message (some msgAudio01)] rfl rfl⟩

/-! ## Claims C3 and C10: the processInput message sequence -/

theorem sendTextAfterClose_piPost (b : Bool) :
    sendTextAfterClose (piPost b) = false := by
  cases b <;> rfl

theorem piGo_all_open (sched : Nat → Bool × Bool) (hs : ∀ i, sched i = (false, true)) :
    ∀ (k : Nat) (items : List InputItem),
    piGo sched k items
      = items.map (fun d => .out (itemMsg d))
        ++ [.out .flushContextMsg, .out .closeContextMsg, .markEnded] := by
  intro k items
  induction items generalizing k with
  | nil => simp [piGo, piPost, hs k]
  | cons d rest ih =>
    cases d with
    | flushSentinel => simp [piGo, hs k, itemMsg, ih (k + 1)]
    | text s => simp [piGo, hs k, itemMsg, ih (k + 1)]

theorem piGo_no_sendText_after_close (sched : Nat → Bool × Bool) :
    ∀ (k : Nat) (items : List InputItem),
    sendTextAfterClose (piGo sched k items) = false := by
  intro k items
  induction items generalizing k with
  | nil => exact sendTextAfterClose_piPost _
  | cons d rest ih =>
    unfold piGo
    by_cases hc : ((sched k).1 || !(sched k).2) = true
    · rw [if_pos hc]
      exact sendTextAfterClose_piPost _
    · rw [if_neg hc]
      cases d with
      | flushSentinel =>
        simp only [sendTextAfterClose]
        rw [ih (k + 1)]
        rfl
      | text s =>
        simp only [sendTextAfterClose]
        rw [ih (k + 1)]
        rfl

theorem piGo_break_not_open (sched : Nat → Bool × Bool) :
    ∀ (j k : Nat) (items : List InputItem),
    j < items.length → (∀ i, i < j → sched (k + i) = (false, true)) →
    (sched (k + j)).2 = false →
    piGo sched k items = (items.take j).map (fun d => .out (itemMsg d)) ++ [.markEnded] := by
  intro j
  induction j with
  | zero =>
    intro k items hlen _ hj2
    cases items with
    | nil => simp at hlen
    | cons d rest =>
      rw [Nat.add_zero] at hj2
      unfold piGo
      rw [if_pos (by rw [hj2]; simp)]
      rw [hj2]
      simp [piPost]
  | succ j ih =>
    intro k items hlen hopen hj2
    cases items with
    | nil => simp at hlen
    | cons d rest =>
      unfold piGo
      have h0 : sched k = (false, true) := by
        have := hopen 0 (Nat.succ_pos j)
        rwa [Nat.add_zero] at this
      rw [if_neg (by rw [h0]; simp)]
      have hrec := ih (k + 1) rest
        (by simpa using hlen)
        (fun i hi => by
          have := hopen (i + 1) (by omega)
          rwa [show k + (i + 1) = k + 1 + i by omega] at this)
        (by rwa [show k + 1 + j = k + (j + 1) by omega])
      cases d with
      | flushSentinel =>
        rw [hrec]
        simp [itemMsg]
      | text s =>
        rw [hrec]
        simp [itemMsg]

theorem piGo_break_closed_flag (sched : Nat → Bool × Bool) :
    ∀ (j k : Nat) (items : List InputItem),
    j < items.length → (∀ i, i < j → sched (k + i) = (false, true)) →
    sched (k + j) = (true, true) →
    piGo sched k items
      = (items.take j).map (fun d => .out (itemMsg d))
        ++ [.out .flushContextMsg, .out .closeContextMsg, .markEnded] := by
  intro j
  induction j with
  | zero =>
    intro k items hlen _ hj2
    cases items with
    | nil => simp at hlen
    | cons d rest =>
      rw [Nat.add_zero] at hj2
      unfold piGo
      rw [if_pos (by rw [hj2]; simp)]
      rw [hj2]
      simp [piPost]
  | succ j ih =>
    intro k items hlen hopen hj2
    cases items with
    | nil => simp at hlen
    | cons d rest =>
      unfold piGo
      have h0 : sched k = (false, true) := by
        have := hopen 0 (Nat.succ_pos j)
        rwa [Nat.add_zero] at this
      rw [if_neg (by rw [h0]; simp)]
      have hrec := ih (k + 1) rest
        (by simpa using hlen)
        (fun i hi => by
          have := hopen (i + 1) (by omega)
          rwa [show k + (i + 1) = k + 1 + i by omega] at this)
        (by rwa [show k + 1 + j = k + (j + 1) by omega])
      cases d with
      | flushSentinel =>
        rw [hrec]
        simp [itemMsg]
      | text s =>
        rw [hrec]
        simp [itemMsg]

/-! ## Claim C3 -/

/-- C3 (counterexample): the caller's input ends normally right after a
flush sentinel (the usual effect of the host's flush-then-end
shutdown).  The sentinel is forwarded as one flush_context and the
end-of-input epilogue sends another, so two flush_context messages
follow the last send_text, not exactly one. -/
theorem c3_counterexample :
    outMsgs (processInput (fun _ => (false, true)) [.text "a", .flushSentinel])
      = [.sendTextMsg "a", .flushContextMsg, .flushContextMsg, .closeContextMsg] ∧
    afterLastSendText (outMsgs (processInput (fun _ => (false, true))
        [.text "a", .flushSentinel]))
      ≠ [.flushContextMsg, .closeContextMsg] := by
  refine ⟨by decide, by decide⟩

/-- C3 (amended): when the caller's input ends normally with the
socket OPEN throughout, the client sends the input-derived messages in
order (each text as a send_text, each sentinel as a flush_context)
followed by exactly one final flush_context and then exactly one
close_context, and marks input ended only after those sends; hence
after the last send_text the outbound messages are zero or more
flush_context (exactly one when the input does not end in flush
sentinels) and then the single close_context.  Under every schedule,
no send_text is ever sent after a close_context. -/
theorem c3_flush_close_on_end_of_input :
    (∀ (sched : Nat → Bool × Bool) (items : List InputItem),
      (∀ i, sched i = (false, true)) →
      processInput sched items
        = items.map (fun d => .out (itemMsg d))
          ++ [.out .flushContextMsg, .out .closeContextMsg, .markEnded]) ∧
    (∀ (sched : Nat → Bool × Bool) (items : List InputItem),
      sendTextAfterClose (processInput sched items) = false) := by
  constructor
  · intro sched items hs
    exact piGo_all_open sched hs 0 items
  · intro sched items
    exact piGo_no_sendText_after_close sched 0 items

/-- C3 (witness): two text items then normal end of input with an OPEN
socket: the client sends the two send_text messages, then exactly one
flush_context, then exactly one close_context, then marks input
ended. -/
theorem c3_witness :
    processInput (fun _ => (false, true)) [.text "a", .text "b"]
      = [.out (.sendTextMsg "a"), .out (.sendTextMsg "b"),
         .out .flushContextMsg, .out .closeContextMsg, .markEnded] ∧
    sendTextAfterClose (processInput (fun _ => (false, true))
        [.text "a", .text "b"]) = false := by
  constructor
  · exact c3_flush_close_on_end_of_input.1 (fun _ => (false, true))
      [.text "a", .text "b"] (fun _ => rfl)
  · exact c3_flush_close_on_end_of_input.2 (fun _ => (false, true))
      [.text "a", .text "b"]

/-! ## Claim C10 -/

/-- C10 (counterexample): when only the stream's closed flag is set
while the socket is still OPEN, the pulled item is indeed dropped, but
the epilogue's socket check passes, so flush_context and close_context
ARE sent — contradicting the claim that no such message is sent in the
(or-the-stream-is-closed) case. -/
theorem c10_counterexample :
    ((processInput (fun _ => (true, true)) [.text "a"]).any
      (fun a => a = .out .flushContextMsg)) = true ∧
    ((processInput (fun _ => (true, true)) [.text "a"]).any
      (fun a => a = .out (.sendTextMsg "a"))) = false := by
  refine ⟨by decide, by decide⟩

/-- C10 (amended): if, at the first pull where the loop stops, the
socket is not OPEN, then that item and all remaining input are
silently dropped, neither flush_context nor close_context is sent, and
input is still marked ended with no error; if instead the stop is due
to the stream's closed flag while the socket is still OPEN, the items
are likewise dropped but the final flush_context and close_context are
still sent before input is marked ended. -/
theorem c10_not_open_drops_input :
    (∀ (sched : Nat → Bool × Bool) (items : List InputItem) (j : Nat),
      j < items.length → (∀ i, i < j → sched i = (false, true)) →
      (sched j).2 = false →
      processInput sched items
        = (items.take j).map (fun d => .out (itemMsg d)) ++ [.markEnded]) ∧
    (∀ (sched : Nat → Bool × Bool) (items : List InputItem) (j : Nat),
      j < items.length → (∀ i, i < j → sched i = (false, true)) →
      sched j = (true, true) →
      processInput sched items
        = (items.take j).map (fun d => .out (itemMsg d))
          ++ [.out .flushContextMsg, .out .closeContextMsg, .markEnded]) := by
  constructor
  · intro sched items j hlen hopen hj
    exact piGo_break_not_open sched j 0 items hlen
      (fun i hi => by rw [Nat.zero_add]; exact hopen i hi)
      (by rwa [Nat.zero_add])
  · intro sched items j hlen hopen hj
    exact piGo_break_closed_flag sched j 0 items hlen
      (fun i hi => by rw [Nat.zero_add]; exact hopen i hi)
      (by rwa [Nat.zero_add])

/-- C10 (witness): with the socket OPEN for the first pull and closed
for the second, the first of two texts is sent, the second is dropped
with no flush_context or close_context, and input is marked ended; and
with the closed flag set at the first pull while the socket is OPEN,
the item is dropped but flush_context and close_context are sent. -/
theorem c10_witness :
    processInput (fun i => (false, i == 0)) [.text "a", .text "b"]
      = [.out (.sendTextMsg "a"), .markEnded] ∧
    processInput (fun _ => (true, true)) [.text "a"]
      = [.out .flushContextMsg, .out .closeContextMsg, .markEnded] := by
  constructor
  · exact c10_not_open_drops_input.1 (fun i => (false, i == 0))
      [.text "a", .text "b"] 1 (by decide)
      (fun i hi => by
        have : i = 0 := by omega
        subst this
        rfl)
      rfl
  · exact c10_not_open_drops_input.2 (fun _ => (true, true)) [.text "a"] 0
      (by decide) (fun i hi => absurd hi (by omega)) rfl

/-! ## Claim C8 -/

/-- C8: the frame assembler round-trip law.  For every sequence of
writes followed by a flush: the concatenation of all emitted frame
payloads in emission order equals the concatenation of all bytes
written in write order (no reordering, loss or duplication); the flush
emits exactly the remaining buffered bytes; and after the flush the
buffer is empty. -/
theorem c8_assembler_round_trip (fs : Nat) (writes : List (List Nat)) :
    ((absRun fs writes).1 ++ (absFlushSt (absRun fs writes).2).1).flatten
      = writes.flatten ∧
    (absFlushSt (absRun fs writes).2).1.flatten = (absRun fs writes).2 ∧
    (absFlushSt (absRun fs writes).2).2 = [] := by
  refine ⟨?_, absFlush_flatten _, rfl⟩
  rw [List.flatten_append]
  show (absRun fs writes).1.flatten ++ (absFlush (absRun fs writes).2).flatten = _
  rw [absFlush_flatten]
  exact absRun_flatten fs writes

/-! ## Claim C7 -/

/-- C7 (counterexample): a session is created, updateOptions changes
the voice, and only then does the session's run start.  The run reads
getConfig() from the live facade, so it observes the updated voice,
not the configuration the facade had when the session was created —
refuting the claim that a session already created runs with its
creation-time configuration. -/
theorem c7_counterexample :
    (obsConfigs defaultConfig cexTimeline).map TTSConfig.voice = ["Bob"] ∧
    (creationConfigs defaultConfig cexTimeline).map TTSConfig.voice = ["Alex"] ∧
    (obsConfigs defaultConfig cexTimeline).map TTSConfig.voice
      ≠ (creationConfigs defaultConfig cexTimeline).map TTSConfig.voice := by
  refine ⟨rfl, rfl, by decide⟩

/-- C7 (amended): updateOptions mutates only the voice, model,
temperature and speakingRate fields — apiKey, encoding, bitRate,
sampleRate, baseUrl and wsUrl are unchanged by every call.  A session
reads the facade's configuration when its run starts, not when it is
created: on any timeline, the runs in a prefix observe configurations
unaffected by later operations, and the runs after the prefix observe
the configuration produced by all updates in the prefix. -/
theorem c7_update_options_scope :
    (∀ (o : UpdateOpts) (c : TTSConfig),
      (updateOptions o c).apiKey = c.apiKey ∧
      (updateOptions o c).encoding = c.encoding ∧
      (updateOptions o c).bitRate = c.bitRate ∧
      (updateOptions o c).sampleRate = c.sampleRate ∧
      (updateOptions o c).baseUrl = c.baseUrl ∧
      (updateOptions o c).wsUrl = c.wsUrl) ∧
    (∀ (c : TTSConfig) (pre suf : List FacadeOp),
      obsConfigs c (pre ++ suf)
        = obsConfigs c pre ++ obsConfigs (applyOps c pre) suf) := by
  constructor
  · intro o c
    exact ⟨rfl, rfl, rfl, rfl, rfl, rfl⟩
  · intro c pre suf
    induction pre generalizing c with
    | nil => simp [obsConfigs, applyOps]
    | cons op rest ih =>
      cases op with
      | createSession =>
        show obsConfigs c (rest ++ suf) = obsConfigs c rest ++ _
        rw [ih c]
        rfl
      | update o =>
        show obsConfigs (updateOptions o c) (rest ++ suf)
          = obsConfigs (updateOptions o c) rest ++ _
        rw [ih (updateOptions o c)]
        rfl
      | runSession =>
        show c :: obsConfigs c (rest ++ suf) = (c :: obsConfigs c rest) ++ _
        rw [ih c]
        rfl

/-! ## Claim C6 -/

theorem takeFramesGo_nil (fs fuel : Nat) : takeFramesGo fs fuel [] = ([], []) := by
  cases fuel with
  | zero => rfl
  | succ n =>
    unfold takeFramesGo
    rw [if_neg (by simp; omega)]

/-- One write of a nonempty payload no longer than a frame, starting
from an empty buffer, yields exactly one frame counting the flush. -/
theorem absWrite_small (fs : Nat) (bytes : List Nat) (hne : bytes ≠ [])
    (hle : bytes.length ≤ fs) :
    (absWrite fs [] bytes).1.length + (absFlush (absWrite fs [] bytes).2).length = 1 := by
  unfold absWrite takeFrames
  simp only [List.nil_append]
  rcases eq_or_lt_of_le hle with heq | hlt
  · have hpos : 0 < bytes.length := List.length_pos.mpr hne
    obtain ⟨n, hn⟩ : ∃ n, bytes.length = n + 1 := ⟨bytes.length - 1, by omega⟩
    rw [hn]
    unfold takeFramesGo
    rw [if_pos (by constructor <;> omega)]
    have hdrop : bytes.drop fs = [] := by
      rw [← heq]
      exact List.drop_length bytes
    rw [hdrop, takeFramesGo_nil]
    simp [absFlush]
  · obtain ⟨n, hn⟩ : ∃ n, bytes.length = n + 1 :=
      ⟨bytes.length - 1, by
        have := List.length_pos.mpr hne
        omega⟩
    rw [hn]
    unfold takeFramesGo
    rw [if_neg (by omega)]
    simp [absFlush, hne]

/-- C6 (confirmed): a complete line on which JSON.parse throws is
logged and skipped without terminating the chunked session.  For a
chunk holding a malformed line followed by a valid audioContent line
(both newline-terminated), the run completes without error, the
emitted frames carry exactly the decoded bytes of the valid line, and
when those bytes are nonempty and at most one frame long the session
emits exactly one audio frame. -/
theorem c6_malformed_line_skipped (parse : List Char → LineParse) (fs : Nat)
    (text : String) (l1 l2 : List Char) (bytes : List Nat)
    (h1nl : '\n' ∉ l1) (h2nl : '\n' ∉ l2)
    (h1 : parse l1 = .malformed) (h2 : parse l2 = .parsed none (some bytes))
    (h2b : isBlank l2 = false) :
    (runChunked parse fs text [l1 ++ '\n' :: (l2 ++ ['\n'])]).2 = none ∧
    ((runChunked parse fs text [l1 ++ '\n' :: (l2 ++ ['\n'])]).1.events.map
      SynthEvent.frame).flatten = bytes ∧
    (bytes ≠ [] → bytes.length ≤ fs →
      (runChunked parse fs text [l1 ++ '\n' :: (l2 ++ ['\n'])]).1.events.length = 1) := by
  have hsplit : splitNl (l1 ++ '\n' :: (l2 ++ ['\n'])) = [l1, l2, []] := by
    rw [splitNl_append_no_newline l1 _ h1nl, splitNl_newline_cons,
      splitNl_append_no_newline l2 _ h2nl]
    simp [splitNl, consHead]
  have hl1 : ∀ st : ChunkState, processLine parse fs (text.take 20) st l1 = (st, none) := by
    intro st
    unfold processLine
    by_cases hb : isBlank l1 = true
    · rw [if_pos hb]
    · rw [if_neg hb, h1]
  have hl2 : ∀ st : ChunkState, processLine parse fs (text.take 20) st l2 =
      ({ st with
          abuf := (absWrite fs st.abuf bytes).2,
          events := st.events ++ (absWrite fs st.abuf bytes).1.map
            (fun f => ⟨text.take 20, "default", f, false⟩) }, none) := by
    intro st
    unfold processLine
    rw [if_neg (by rw [h2b]; exact Bool.false_ne_true), h2]
  have hlines : processLines parse fs (text.take 20) ⟨[], [], [], false⟩ [l1, l2]
      = ({ buf := [],
           abuf := (absWrite fs [] bytes).2,
           events := (absWrite fs [] bytes).1.map
             (fun f => ⟨text.take 20, "default", f, false⟩),
           queueClosed := false }, none) := by
    unfold processLines
    rw [hl1]
    show processLines parse fs (text.take 20) ⟨[], [], [], false⟩ [l2] = _
    unfold processLines
    rw [hl2]
    show processLines parse fs (text.take 20) _ [] = _
    unfold processLines
    simp
  have hrun : runChunked parse fs text [l1 ++ '\n' :: (l2 ++ ['\n'])] =
      ({ buf := [],
         abuf := [],
         events := (absWrite fs [] bytes).1.map
             (fun f => ⟨text.take 20, "default", f, false⟩)
           ++ (absFlush (absWrite fs [] bytes).2).map
             (fun f => ⟨text.take 20, "default", f, true⟩),
         queueClosed := true }, none) := by
    unfold runChunked runChunkedLoop processChunk
    simp only [initChunkState, List.nil_append]
    rw [hsplit]
    rw [show [l1, l2, ([] : List Char)].dropLast = [l1, l2] from rfl]
    rw [show [l1, l2, ([] : List Char)].getLastD [] = [] from rfl]
    rw [show ({ buf := [], abuf := [], events := [], queueClosed := false } : ChunkState)
          = ⟨[], [], [], false⟩ from rfl]
    rw [hlines]
    show runChunkedLoop parse fs (text.take 20) _ [] = _
    unfold runChunkedLoop
    simp
  rw [hrun]
  refine ⟨rfl, ?_, ?_⟩
  · simp only [List.map_append, List.map_map]
    have hmk : ∀ b : Bool,
        (SynthEvent.frame ∘ fun f => SynthEvent.mk (text.take 20) "default" f b)
          = id := by
      intro b
      funext f
      rfl
    rw [hmk, hmk]
    simp only [List.map_id, List.flatten_append]
    rw [absFlush_flatten]
    have := absWrite_flatten fs [] bytes
    simpa using this
  · intro hne hle
    simp only [List.length_append, List.length_map]
    exact absWrite_small fs bytes hne hle

/-- C6 (witness): the section 8 scenario — a chunk of the literal text
not json, a newline, a valid audio line and a newline — yields no
error and exactly one audio frame carrying the decoded bytes. -/
theorem c6_witness :
    (runChunked exampleParse 4 "hello"
        ["not json".toList ++ '\n' :: ("{x}".toList ++ ['\n'])]).2 = none ∧
    ((runChunked exampleParse 4 "hello"
        ["not json".toList ++ '\n' :: ("{x}".toList ++ ['\n'])]).1.events.map
      SynthEvent.frame).flatten = [1, 2, 3] ∧
    (runChunked exampleParse 4 "hello"
        ["not json".toList ++ '\n' :: ("{x}".toList ++ ['\n'])]).1.events.length = 1 := by
  have h := c6_malformed_line_skipped exampleParse 4 "hello"
    ("not json".toList) ("{x}".toList) [1, 2, 3]
    (by decide) (by decide) (by decide) (by decide) (by decide)
  exact ⟨h.1, h.2.1, h.2.2 (by decide) (by decide)⟩

/-! ## Claim C9 -/

theorem splitNl_append (l₁ l₂ : List Char) :
    splitNl (l₁ ++ l₂)
      = (splitNl l₁).dropLast
        ++ consHead ((splitNl l₁).getLastD []) (splitNl l₂) := by
  induction l₁ with
  | nil =>
    cases hs : splitNl l₂ with
    | nil => exact absurd hs (splitNl_ne_nil l₂)
    | cons p ps => simp [splitNl, consHead, hs]
  | cons c rest ih =>
    obtain ⟨p, ps, hr⟩ : ∃ p ps, splitNl rest = p :: ps := by
      cases hr : splitNl rest with
      | nil => exact absurd hr (splitNl_ne_nil rest)
      | cons p ps => exact ⟨p, ps, rfl⟩
    by_cases hc : c = '\n'
    · subst hc
      simp only [List.cons_append, splitNl_newline_cons, ih, hr]
      cases ps with
      | nil => simp [List.getLastD_cons, consHead]
      | cons p₂ ps₂ => simp [List.getLastD_cons, List.dropLast_cons₂]
    · simp only [List.cons_append]
      rw [show splitNl (c :: (rest ++ l₂)) = consHead [c] (splitNl (rest ++ l₂)) from by
          simp [splitNl, hc],
        show splitNl (c :: rest) = consHead [c] (splitNl rest) from by
          simp [splitNl, hc],
        ih, hr]
      cases ps with
      | nil =>
        obtain ⟨q, qs, hq⟩ : ∃ q qs, splitNl l₂ = q :: qs := by
          cases hq : splitNl l₂ with
          | nil => exact absurd hq (splitNl_ne_nil l₂)
          | cons q qs => exact ⟨q, qs, rfl⟩
        simp [consHead, hq, List.getLastD_cons]
      | cons p₂ ps₂ =>
        simp [consHead, List.getLastD_cons, List.dropLast_cons₂]

/-- Bytes after the final newline never change which complete lines
exist: appending newline-free trailing text only changes the last
(unprocessed) piece of the split. -/
theorem splitNl_dropLast_trailing (u t : List Char) (h : '\n' ∉ t) :
    (splitNl (u ++ t)).dropLast = (splitNl u).dropLast := by
  rw [splitNl_append, splitNl_no_newline t h]
  simp [consHead, List.dropLast_concat]

/-- processLine ignores and preserves the text buffer field. -/
theorem processLine_buf_set (p : List Char → LineParse) (fs : Nat) (rid : String)
    (st : ChunkState) (b : List Char) (l : List Char) :
    (processLine p fs rid { st with buf := b } l).1
      = { (processLine p fs rid st l).1 with buf := b } ∧
    (processLine p fs rid { st with buf := b } l).2
      = (processLine p fs rid st l).2 := by
  unfold processLine
  by_cases hb : isBlank l = true
  · simp [hb]
  · simp only [hb, Bool.false_eq_true, if_false]
    cases hp : p l with
    | malformed => simp
    | parsed err audio =>
      cases err with
      | some m => simp
      | none =>
        cases audio with
        | some bytes => simp
        | none => simp

/-- processLines ignores and preserves the text buffer field. -/
theorem processLines_buf_set (p : List Char → LineParse) (fs : Nat) (rid : String)
    (ls : List (List Char)) :
    ∀ (st : ChunkState) (b : List Char),
    (processLines p fs rid { st with buf := b } ls).1
      = { (processLines p fs rid st ls).1 with buf := b } ∧
    (processLines p fs rid { st with buf := b } ls).2
      = (processLines p fs rid st ls).2 := by
  induction ls with
  | nil => intro st b; exact ⟨rfl, rfl⟩
  | cons l rest ih =>
    intro st b
    unfold processLines
    obtain ⟨h1, h2⟩ := processLine_buf_set p fs rid st b l
    cases hpl : processLine p fs rid st l with
    | mk st' err =>
      rw [hpl] at h1 h2
      have hpl2 : processLine p fs rid { st with buf := b } l
          = ({ st' with buf := b }, err) := by
        have hp1 : (processLine p fs rid { st with buf := b } l).1
            = { st' with buf := b } := h1
        have hp2 : (processLine p fs rid { st with buf := b } l).2 = err := h2
        calc processLine p fs rid { st with buf := b } l
            = ((processLine p fs rid { st with buf := b } l).1,
               (processLine p fs rid { st with buf := b } l).2) := rfl
          _ = ({ st' with buf := b }, err) := by rw [hp1, hp2]
      rw [hpl2]
      cases err with
      | none => exact ih st' b
      | some e => exact ⟨rfl, rfl⟩

/-- Two chunks whose splits have the same complete lines lead the
chunked session to the same assembler state, events, queue state and
error — only the retained text buffer may differ. -/
theorem processChunk_dropLast_congr (p : List Char → LineParse) (fs : Nat)
    (rid : String) (st : ChunkState) (c₁ c₂ : List Char)
    (h : (splitNl (st.buf ++ c₁)).dropLast = (splitNl (st.buf ++ c₂)).dropLast) :
    (processChunk p fs rid st c₁).1.abuf = (processChunk p fs rid st c₂).1.abuf ∧
    (processChunk p fs rid st c₁).1.events = (processChunk p fs rid st c₂).1.events ∧
    (processChunk p fs rid st c₁).1.queueClosed
      = (processChunk p fs rid st c₂).1.queueClosed ∧
    (processChunk p fs rid st c₁).2 = (processChunk p fs rid st c₂).2 := by
  unfold processChunk
  dsimp only
  rw [h]
  obtain ⟨ha1, hb1⟩ := processLines_buf_set p fs rid
    ((splitNl (st.buf ++ c₂)).dropLast) st ((splitNl (st.buf ++ c₁)).getLastD [])
  obtain ⟨ha2, hb2⟩ := processLines_buf_set p fs rid
    ((splitNl (st.buf ++ c₂)).dropLast) st ((splitNl (st.buf ++ c₂)).getLastD [])
  refine ⟨?_, ?_, ?_, ?_⟩
  · rw [ha1, ha2]
  · rw [ha1, ha2]
  · rw [ha1, ha2]
  · rw [hb1, hb2]

theorem runChunked_single_congr (p : List Char → LineParse) (fs : Nat)
    (text : String) (c₁ c₂ : List Char)
    (h : (splitNl c₁).dropLast = (splitNl c₂).dropLast) :
    (runChunked p fs text [c₁]).1.events = (runChunked p fs text [c₂]).1.events ∧
    (runChunked p fs text [c₁]).2 = (runChunked p fs text [c₂]).2 ∧
    (runChunked p fs text [c₁]).1.queueClosed
      = (runChunked p fs text [c₂]).1.queueClosed ∧
    (runChunked p fs text [c₁]).1.abuf = (runChunked p fs text [c₂]).1.abuf := by
  obtain ⟨hab, hev, hq, herr⟩ :=
    processChunk_dropLast_congr p fs (text.take 20) initChunkState c₁ c₂ h
  have key : ∀ c : List Char, runChunked p fs text [c]
      = (match processChunk p fs (text.take 20) initChunkState c with
         | (st, some e) => (st, some e)
         | (st, none) =>
           ({ st with
              abuf := [],
              events := st.events ++ (absFlush st.abuf).map
                (fun f => ⟨text.take 20, "default", f, true⟩),
              queueClosed := true }, none)) := by
    intro c
    unfold runChunked runChunkedLoop
    dsimp only
    cases processChunk p fs (text.take 20) initChunkState c with
    | mk st e => cases e <;> rfl
  rw [key c₁, key c₂]
  cases hpc₁ : processChunk p fs (text.take 20) initChunkState c₁ with
  | mk st₁ e₁ =>
    cases hpc₂ : processChunk p fs (text.take 20) initChunkState c₂ with
    | mk st₂ e₂ =>
      rw [hpc₁, hpc₂] at hab hev hq herr
      dsimp only at hab hev hq herr ⊢
      subst herr
      cases e₁ with
      | some e => exact ⟨hev, rfl, hq, hab⟩
      | none =>
        refine ⟨?_, rfl, rfl, rfl⟩
        dsimp only
        rw [hev, hab]

/-- C9 (confirmed): when the chunked response stream ends with bytes
after the last newline (a trailing line with no terminating newline),
those bytes are discarded: the run's events, error, queue state and
assembler buffer are exactly those of the same stream truncated at the
last newline — the trailing text is never parsed and contributes no
frame or error, and only the assembler's buffered audio is flushed. -/
theorem c9_trailing_line_discarded (p : List Char → LineParse) (fs : Nat)
    (text : String) (pfx t : List Char) (ht : '\n' ∉ t) :
    (runChunked p fs text [pfx ++ '\n' :: t]).1.events
      = (runChunked p fs text [pfx ++ ['\n']]).1.events ∧
    (runChunked p fs text [pfx ++ '\n' :: t]).2
      = (runChunked p fs text [pfx ++ ['\n']]).2 ∧
    (runChunked p fs text [pfx ++ '\n' :: t]).1.queueClosed
      = (runChunked p fs text [pfx ++ ['\n']]).1.queueClosed ∧
    (runChunked p fs text [pfx ++ '\n' :: t]).1.abuf
      = (runChunked p fs text [pfx ++ ['\n']]).1.abuf := by
  have hform : pfx ++ '\n' :: t = (pfx ++ ['\n']) ++ t := by simp
  have hdl : (splitNl (pfx ++ '\n' :: t)).dropLast
      = (splitNl (pfx ++ ['\n'])).dropLast := by
    rw [hform]
    exact splitNl_dropLast_trailing (pfx ++ ['\n']) t ht
  exact runChunked_single_congr p fs text _ _ hdl

/-- C9 (witness): a valid audio line followed by trailing bytes with no
newline produces the same events and outcome as without the trailing
bytes, and in particular the trailing garbage adds no frame and no
error. -/
theorem c9_witness :
    (runChunked exampleParse 4 "hello" ["{x}".toList ++ '\n' :: "garb".toList]).1.events
      = (runChunked exampleParse 4 "hello" ["{x}".toList ++ ['\n']]).1.events ∧
    (runChunked exampleParse 4 "hello" ["{x}".toList ++ '\n' :: "garb".toList]).2
      = (runChunked exampleParse 4 "hello" ["{x}".toList ++ ['\n']]).2 :=
  ⟨(c9_trailing_line_discarded exampleParse 4 "hello" "{x}".toList "garb".toList
      (by decide)).1,
   (c9_trailing_line_discarded exampleParse 4 "hello" "{x}".toList "garb".toList
      (by decide)).2.1⟩

end InworldTTS
